import Mathlib

/-!
Verification of the GIF frame decoder/encoder in `gif_frames.py`
(repository `multiprocessing-talk`).

The file shallowly embeds the two core functions, `read_frames` and
`write_frames`, together with their helpers (`is_partial_frame`,
`int_to_bin`, `header_block`, `logical_screen_descriptor`,
`application_ext`).  The external collaborators — the PIL single-frame
codec (`GifImagePlugin.getheader` / `getdata`) and the animated-image
source abstraction (`orig.getpalette`, `orig.size`, `orig.tile`,
`orig.convert`, `orig.seek`) — are modelled abstractly through the
interfaces the code uses, as the specification describes them.
Bytes are modelled as `Nat` values; images as width/height plus a pixel
function; the output sink as the list of chunks passed to
`handle.write`, in order.
-/

/-- One RGBA pixel; each channel is a byte value. -/
structure Pixel where
  r : Nat
  g : Nat
  b : Nat
  a : Nat
deriving DecidableEq, Repr

/-- The all-zero pixel, i.e. transparent black `(0,0,0,0)`:
the content of a freshly allocated `Image.new('RGBA', size)` and the
value PIL's `getbbox` treats as background. -/
def Pixel.zero : Pixel := ⟨0, 0, 0, 0⟩

instance : Inhabited Pixel := ⟨Pixel.zero⟩

/-- Byte subtraction modulo 256, the per-channel operation of PIL's
`ImageChops.subtract_modulo`.  For byte-valued inputs this is
`(a - b) mod 256`. -/
def bsub (a b : Nat) : Nat := (a % 256 + (256 - b % 256)) % 256

/-- Channel-wise modulo-256 subtraction of two RGBA pixels. -/
def Pixel.subMod (p q : Pixel) : Pixel :=
  ⟨bsub p.r q.r, bsub p.g q.g, bsub p.b q.b, bsub p.a q.a⟩

/-- A rectangle `(x0, y0, x1, y1)` with exclusive right/bottom edges, as
used by PIL bounding boxes and tile extents. -/
structure Rect where
  x0 : Nat
  y0 : Nat
  x1 : Nat
  y1 : Nat
deriving DecidableEq, Repr

/-- A full-size RGBA canvas: a width, a height and a pixel map.
Only coordinates with `x < width` and `y < height` are meaningful. -/
structure Canvas where
  width : Nat
  height : Nat
  pix : Nat → Nat → Pixel

instance : Inhabited Canvas := ⟨⟨0, 0, fun _ _ => Pixel.zero⟩⟩

/-- PIL's `img.copy()`.  In this pure model a copy is the value itself;
the aliasing consequences of *not* copying are modelled where they
matter, in the decoder's consumer-mutation hook below. -/
def Canvas.copy (c : Canvas) : Canvas := c

/-- PIL's `img.crop(box)`: the sub-image of extent `box`, its pixel at
`(x, y)` taken from `(x + box.x0, y + box.y0)` of the original. -/
def Canvas.crop (c : Canvas) (box : Rect) : Canvas :=
  ⟨box.x1 - box.x0, box.y1 - box.y0, fun x y => c.pix (x + box.x0) (y + box.y0)⟩

/-- PIL's `ImageChops.subtract_modulo(image1, image2)`: channel-wise
`(image1 - image2) mod 256`.  The chop allocator raises only on a mode
mismatch (every canvas here is RGBA); when the two sizes differ it
silently builds its output at the minimum of the two widths and
heights, i.e. over the origin-anchored intersection of the images. -/
def subtract_modulo (image1 image2 : Canvas) : Canvas :=
  ⟨min image1.width image2.width, min image1.height image2.height,
    fun x y => (image1.pix x y).subMod (image2.pix x y)⟩

/-- Column `x` of canvas `c` contains a pixel different from zero. -/
def Canvas.colNZ (c : Canvas) (x : Nat) : Bool :=
  (List.range c.height).any fun y => decide (c.pix x y ≠ Pixel.zero)

/-- Row `y` of canvas `c` contains a pixel different from zero. -/
def Canvas.rowNZ (c : Canvas) (y : Nat) : Bool :=
  (List.range c.width).any fun x => decide (c.pix x y ≠ Pixel.zero)

/-- Least `k < n` with `p k = true`, scanning upward. -/
def firstSat (p : Nat → Bool) : Nat → Option Nat
  | 0 => none
  | n + 1 =>
    match firstSat p n with
    | some k => some k
    | none => if p n then some n else none

/-- Greatest `k < n` with `p k = true`, scanning downward. -/
def lastSat (p : Nat → Bool) : Nat → Option Nat
  | 0 => none
  | n + 1 => if p n then some n else lastSat p n

/-- PIL's `img.getbbox()`: the minimal rectangle containing every pixel
that is nonzero in some band, with exclusive right/bottom edges, or
`none` when the image is entirely zero. -/
def Canvas.getbbox (c : Canvas) : Option Rect :=
  match firstSat c.colNZ c.width with
  | none => none
  | some x0 =>
    match firstSat c.rowNZ c.height with
    | none => none
    | some y0 =>
      match lastSat c.colNZ c.width with
      | none => none
      | some x1 =>
        match lastSat c.rowNZ c.height with
        | none => none
        | some y1 => some ⟨x0, y0, x1 + 1, y1 + 1⟩

/-- The external single-frame GIF codec (PIL's `GifImagePlugin`), used
by `write_frames` exactly through these three capabilities: the packed
display-flags byte `header[1]` and the global color table `header[3]`
returned by `getheader`, and the data blocks returned by
`getdata(image, offset)`. -/
structure Codec where
  packedBit : Canvas → Nat
  colorTable : Canvas → List Nat
  getdata : Canvas → Nat × Nat → List (List Nat)

/-- Source line `int_to_bin(i)`: the two bytes
`bytes('\x7b:c\x7d\x7b:c\x7d'.format(i % 256, int(i / 256)), 'latin-1')`,
i.e. little-endian 16-bit for `i < 65536`. -/
def int_to_bin (i : Nat) : List Nat := [i % 256, i / 256]

/-- Source `header_block()`: the signature `GIF` and version `89a`. -/
def header_block : List Nat := [71, 73, 70] ++ [56, 57, 97]

/-- Source `logical_screen_descriptor(img, packed_bit)`: width, height,
the packed byte taken from the original image's header, a zero
background color index and a zero pixel aspect ratio. -/
def logical_screen_descriptor (img : Canvas) (packed_bit : Nat) : List Nat :=
  int_to_bin img.width ++ int_to_bin img.height ++ [packed_bit] ++ [0] ++ [0]

/-- Source `application_ext(loops=0)`: extension introducer `0x21`,
label `0xFF`, block size `0x0B`, `NETSCAPE`, `2.0`, sub-block size
`0x03`, `0x01`, the two-byte loop count, and the terminator `0x00`. -/
def application_ext (loops : Nat) : List Nat :=
  [0x21] ++ [0xff] ++ [0x0b] ++ [78, 69, 84, 83, 67, 65, 80, 69] ++ [50, 46, 48] ++
    [0x03] ++ [0x01] ++ int_to_bin loops ++ [0x00]

/-- The chunks `write_frames` writes for the first canvas: the header
block, the logical screen descriptor built with the codec's packed byte,
the codec's global color table, the application extension, and then the
codec's data blocks for the full first canvas. -/
def firstFrameChunks (codec : Codec) (img : Canvas) : List (List Nat) :=
  [header_block, logical_screen_descriptor img (codec.packedBit img),
    codec.colorTable img, application_ext 0] ++ codec.getdata img (0, 0)

/-- The chunks `write_frames` writes for a later canvas `img` against
its predecessor `prev`: the codec's data blocks for the crop of `img` to
the bounding box of `subtract_modulo(img, prev)` at that box's top-left
offset, or nothing at all when the bounding box is empty. -/
def deltaChunk (codec : Codec) (prev img : Canvas) : List (List Nat) :=
  match (subtract_modulo img prev).getbbox with
  | some bbox => codec.getdata (img.crop bbox) (bbox.x0, bbox.y0)
  | none => []

/-- Outcome of an encoder run: the chunks written to the sink, in
order, and whether the run completed.  Every operation the loop body
performs is total here — in particular `subtract_modulo` never raises
for the RGBA canvases of this model, even on a size mismatch — so every
run completes and `ok` is `true` in all theorems below. -/
structure EncodeResult where
  chunks : List (List Nat)
  ok : Bool
deriving Repr, DecidableEq

/-- The `for img in frames` loop of `write_frames`, carrying
`prev_frame` (initially `None`).  The first canvas writes the header
chunks and its full data blocks; each later canvas is compared with its
predecessor by `subtract_modulo` — there is no size check, so a
geometry-mismatched canvas is delta-encoded over the intersection and
the loop simply continues — and at the end of every iteration
`prev_frame = img.copy()`. -/
def writeLoop (codec : Codec) : List Canvas → Option Canvas → EncodeResult
  | [], _ => ⟨[], true⟩
  | img :: rest, none =>
    let r := writeLoop codec rest (some img.copy)
    ⟨firstFrameChunks codec img ++ r.chunks, r.ok⟩
  | img :: rest, some prev =>
    let r := writeLoop codec rest (some img.copy)
    ⟨deltaChunk codec prev img ++ r.chunks, r.ok⟩

/-- Source `write_frames(handle, frames)`: run the frame loop over all
canvases and append the single trailer byte `0x3B`. -/
def write_frames (codec : Codec) (frames : List Canvas) : EncodeResult :=
  let r := writeLoop codec frames none
  ⟨r.chunks ++ [[0x3b]], r.ok⟩

/-- A palette: the color lookup table mapping an index to an RGB entry
(carried here in a `Pixel` whose alpha component is ignored). -/
def Pal : Type := Nat → Pixel

/-- One frame record of an animated-image source, as the decoder reads
it through PIL: an optional local color table (`none` when
`orig.getpalette()` is falsy for this frame), the declared tile extent
(`orig.tile[0][1]`, `none` for an empty tile list), and the frame's own
index data, `none` at transparent pixels. -/
structure SourceFrame where
  localPalette : Option Pal
  tile : Option Rect
  idx : Nat → Nat → Option Nat

instance : Inhabited SourceFrame := ⟨⟨none, none, fun _ _ => none⟩⟩

/-- An animated-image source positioned at its first frame: the logical
screen size (`orig.size`, constant across seeks), the global color
table that `orig.getpalette()` exposes at the first frame, and the
frame records in source order. -/
structure Source where
  width : Nat
  height : Nat
  palette : Pal
  frames : List SourceFrame

/-- Source `is_partial_frame(img)`: false for an empty tile list,
otherwise true exactly when `img.tile[0][1][2:]`, the tile's
bottom-right corner `(x1, y1)`, differs from `img.size`.  Note that the
tile's top-left corner is not consulted. -/
def is_partial_frame (src : Source) (sf : SourceFrame) : Bool :=
  match sf.tile with
  | none => false
  | some t => decide ((t.x1, t.y1) ≠ (src.width, src.height))

/-- Membership of a point in a rectangle with exclusive far edges. -/
def insideRect (t : Rect) (x y : Nat) : Prop :=
  t.x0 ≤ x ∧ x < t.x1 ∧ t.y0 ≤ y ∧ y < t.y1

instance (t : Rect) (x y : Nat) : Decidable (insideRect t x y) := by
  unfold insideRect
  exact instDecidableAnd

/-- The palette in effect for one frame after the decoder's
`if not orig.getpalette(): orig.putpalette(palette)` step: the frame's
own color table when it has one, else the global palette captured from
the first frame. -/
def effPal (src : Source) (sf : SourceFrame) : Pal :=
  sf.localPalette.getD src.palette

/-- One pixel of `orig.convert('RGBA')` for frame `sf` under palette
`pal`: inside the tile, the palette entry of the frame's index with
alpha 255, or transparent black at a transparent index; outside the
tile, transparent black (the frame's own data covers only its declared
tile). -/
def convPix (sf : SourceFrame) (pal : Pal) (x y : Nat) : Pixel :=
  match sf.tile with
  | none =>
    match sf.idx x y with
    | some i => ⟨(pal i).r, (pal i).g, (pal i).b, 255⟩
    | none => Pixel.zero
  | some t =>
    if insideRect t x y then
      match sf.idx x y with
      | some i => ⟨(pal i).r, (pal i).g, (pal i).b, 255⟩
      | none => Pixel.zero
    else Pixel.zero

/-- The loop body of `read_frames` for one source frame: allocate
`Image.new('RGBA', orig.size)`; when `is_partial_frame(orig)` paste the
previous composited canvas into it; then paste the frame's own
converted pixels on top using their alpha as the mask, so an opaque
converted pixel wins and a transparent one leaves the base visible. -/
def composite (src : Source) (sf : SourceFrame) (pal : Pal) (prev : Canvas) : Canvas :=
  ⟨src.width, src.height, fun x y =>
    let cp := convPix sf pal x y
    if cp.a = 0 then
      if is_partial_frame src sf then prev.pix x y else Pixel.zero
    else cp⟩

/-- Outcome of running a Python generator to completion: either the
list of yielded values in order, or a propagated exception. -/
inductive PyResult (α : Type) where
  | ok (values : α)
  | exn
deriving Repr, DecidableEq

/-- The `while True` loop of `read_frames`, driven to completion by a
consumer.  The consumer's handling of each yielded canvas is the hook
`mutate`: because the source assigns `prev_frame = current_frame`
without a copy, whatever the consumer has done to yielded canvas number
`pos` by the time it requests the next frame is what the next iteration
sees as `prev_frame`; `mutate pos cur` is that possibly-altered canvas
(a consumer that never mutates is `fun _ c => c`).  When no frame
remains, `orig.seek(orig.tell() + 1)` raises `EOFError`, the
`except EOFError` clause breaks out of the loop, and the generator
finishes normally with the values yielded so far. -/
def read_loop (src : Source) (mutate : Nat → Canvas → Canvas) :
    List SourceFrame → Nat → Canvas → PyResult (List Canvas)
  | [], _, _ => PyResult.ok []
  | sf :: rest, pos, prev =>
    let cur := composite src sf (effPal src sf) prev
    match rest with
    | [] => PyResult.ok [cur]
    | r :: rs =>
      match read_loop src mutate (r :: rs) (pos + 1) (mutate pos cur) with
      | PyResult.ok out => PyResult.ok (cur :: out)
      | PyResult.exn => PyResult.exn

/-- Source `read_frames(orig)` run to completion by a consumer whose
per-canvas behaviour is `mutate`: capture the first frame's palette,
set `prev_frame` to the first frame converted to RGBA, then run the
frame loop from the first frame. -/
def read_frames (src : Source) (mutate : Nat → Canvas → Canvas) :
    PyResult (List Canvas) :=
  match src.frames with
  | [] => PyResult.ok []
  | f0 :: _ =>
    read_loop src mutate src.frames 0
      ⟨src.width, src.height, fun x y => convPix f0 (effPal src f0) x y⟩

/-- Pixel `(x, y)` of the canvas yielded at position `i` when decoding
`src` with consumer behaviour `mutate`; `Pixel.zero` when the decode
faults or yields fewer than `i + 1` canvases. -/
def yieldPixM (src : Source) (mutate : Nat → Canvas → Canvas) (i x y : Nat) : Pixel :=
  match read_frames src mutate with
  | PyResult.ok l => ((l.getD i default).pix x y)
  | PyResult.exn => Pixel.zero

/-- Pixel `(x, y)` of the canvas yielded at position `i` when decoding
`src` with a consumer that never mutates the yielded canvases. -/
def yieldPix (src : Source) (i x y : Nat) : Pixel :=
  yieldPixM src (fun _ c => c) i x y

/-! ## Arithmetic and bounding-box lemmas -/

theorem bsub_self (a : Nat) : bsub a a = 0 := by
  unfold bsub
  omega

theorem bsub_ne_zero (a b : Nat) (ha : a < 256) (hb : b < 256) (h : a ≠ b) :
    bsub a b ≠ 0 := by
  unfold bsub
  omega

theorem subMod_self (p : Pixel) : p.subMod p = Pixel.zero := by
  simp [Pixel.subMod, bsub_self, Pixel.zero]

/-- Every channel of the pixel is a byte value. -/
def Pixel.bytes (p : Pixel) : Prop :=
  p.r < 256 ∧ p.g < 256 ∧ p.b < 256 ∧ p.a < 256

instance (p : Pixel) : Decidable p.bytes := by
  unfold Pixel.bytes
  exact instDecidableAnd

theorem subMod_ne_zero (p q : Pixel) (hp : p.bytes) (hq : q.bytes) (h : p ≠ q) :
    p.subMod q ≠ Pixel.zero := by
  intro hz
  apply h
  cases p
  cases q
  unfold Pixel.bytes at hp hq
  simp only [Pixel.subMod, Pixel.zero, Pixel.mk.injEq] at hz
  unfold bsub at hz
  dsimp only at hp hq hz
  simp only [Pixel.mk.injEq]
  omega

theorem firstSat_eq_none (p : Nat → Bool) (n : Nat) (h : ∀ j, j < n → p j = false) :
    firstSat p n = none := by
  induction n with
  | zero => rfl
  | succ m ih =>
    simp only [firstSat, ih fun j hj => h j (Nat.lt_succ_of_lt hj),
      h m (Nat.lt_succ_self m), Bool.false_eq_true, if_false]

theorem firstSat_eq_some (p : Nat → Bool) (n k : Nat) (hk : k < n) (hp : p k = true)
    (hmin : ∀ j, j < k → p j = false) : firstSat p n = some k := by
  induction n with
  | zero => omega
  | succ m ih =>
    rcases Nat.lt_succ_iff_lt_or_eq.mp hk with h | h
    · simp only [firstSat, ih h]
    · subst h
      simp only [firstSat, firstSat_eq_none p k hmin, hp, if_true]

theorem lastSat_eq_some (p : Nat → Bool) (n k : Nat) (hk : k < n) (hp : p k = true)
    (hmax : ∀ j, k < j → j < n → p j = false) : lastSat p n = some k := by
  induction n with
  | zero => omega
  | succ m ih =>
    rcases Nat.lt_succ_iff_lt_or_eq.mp hk with h | h
    · simp only [lastSat, hmax m h (Nat.lt_succ_self m), Bool.false_eq_true, if_false]
      exact ih h fun j h1 h2 => hmax j h1 (Nat.lt_succ_of_lt h2)
    · subst h
      simp only [lastSat, hp, if_true]

theorem colNZ_eq_false (c : Canvas) (x : Nat)
    (h : ∀ y, y < c.height → c.pix x y = Pixel.zero) : c.colNZ x = false := by
  simp only [Canvas.colNZ, List.any_eq_false, List.mem_range, decide_not,
    Bool.not_eq_true, decide_eq_false_iff_not, not_not]
  intro y hy
  simpa using h y hy

theorem colNZ_eq_true (c : Canvas) (x y : Nat) (hy : y < c.height)
    (h : c.pix x y ≠ Pixel.zero) : c.colNZ x = true := by
  simp only [Canvas.colNZ, List.any_eq_true, List.mem_range]
  exact ⟨y, hy, by simpa using h⟩

theorem rowNZ_eq_false (c : Canvas) (y : Nat)
    (h : ∀ x, x < c.width → c.pix x y = Pixel.zero) : c.rowNZ y = false := by
  simp only [Canvas.rowNZ, List.any_eq_false, List.mem_range, decide_not,
    Bool.not_eq_true, decide_eq_false_iff_not, not_not]
  intro x hx
  simpa using h x hx

theorem rowNZ_eq_true (c : Canvas) (x y : Nat) (hx : x < c.width)
    (h : c.pix x y ≠ Pixel.zero) : c.rowNZ y = true := by
  simp only [Canvas.rowNZ, List.any_eq_true, List.mem_range]
  exact ⟨x, hx, by simpa using h⟩

theorem getbbox_eq_none (c : Canvas)
    (h : ∀ x, x < c.width → ∀ y, y < c.height → c.pix x y = Pixel.zero) :
    c.getbbox = none := by
  have hfs : firstSat c.colNZ c.width = none :=
    firstSat_eq_none _ _ fun x hx => colNZ_eq_false c x fun y hy => h x hx y hy
  unfold Canvas.getbbox
  rw [hfs]

theorem getbbox_eq_some (c : Canvas) (a b d e : Nat)
    (hx0 : firstSat c.colNZ c.width = some a)
    (hy0 : firstSat c.rowNZ c.height = some b)
    (hx1 : lastSat c.colNZ c.width = some d)
    (hy1 : lastSat c.rowNZ c.height = some e) :
    c.getbbox = some ⟨a, b, d + 1, e + 1⟩ := by
  unfold Canvas.getbbox
  rw [hx0, hy0, hx1, hy1]

/-! ## Encoder loop characterization -/

theorem writeLoop_nil (codec : Codec) (prev : Option Canvas) :
    writeLoop codec [] prev = ⟨[], true⟩ := rfl

theorem writeLoop_cons_some (codec : Codec) (img prev : Canvas) (rest : List Canvas) :
    writeLoop codec (img :: rest) (some prev) =
      ⟨deltaChunk codec prev img ++ (writeLoop codec rest (some img)).chunks,
        (writeLoop codec rest (some img)).ok⟩ := by
  simp [writeLoop, Canvas.copy]

theorem writeLoop_zip (codec : Codec) (frames : List Canvas) :
    ∀ prev : Canvas,
      (∀ c ∈ frames, c.width = prev.width ∧ c.height = prev.height) →
      writeLoop codec frames (some prev) =
        ⟨(frames.zip (prev :: frames)).flatMap
            (fun pr => deltaChunk codec pr.2 pr.1), true⟩ := by
  induction frames with
  | nil => intro prev _; rfl
  | cons f fs ih =>
    intro prev h
    have hf := h f (List.mem_cons_self f fs)
    have hfs : ∀ c ∈ fs, c.width = f.width ∧ c.height = f.height := by
      intro c hc
      have := h c (List.mem_cons_of_mem f hc)
      exact ⟨this.1.trans hf.1.symm, this.2.trans hf.2.symm⟩
    rw [writeLoop_cons_some codec f prev fs, ih f hfs,
      List.zip_cons_cons, List.flatMap_cons]

theorem write_frames_cons (codec : Codec) (f0 : Canvas) (rest : List Canvas)
    (hsz : ∀ c ∈ rest, c.width = f0.width ∧ c.height = f0.height) :
    write_frames codec (f0 :: rest) =
      ⟨firstFrameChunks codec f0 ++
          ((rest.zip (f0 :: rest)).flatMap (fun pr => deltaChunk codec pr.2 pr.1)) ++
          [[0x3b]], true⟩ := by
  have hloop : writeLoop codec (f0 :: rest) none =
      ⟨firstFrameChunks codec f0 ++ (writeLoop codec rest (some f0)).chunks,
        (writeLoop codec rest (some f0)).ok⟩ := by
    simp [writeLoop, Canvas.copy]
  rw [write_frames, hloop, writeLoop_zip codec rest f0 hsz]

/-! ## Claim theorems: encoder -/

/-- C10: for the empty input sequence `write_frames` writes exactly one
chunk holding the single trailer byte `0x3B` — no signature, screen
descriptor, color table or application extension — so an empty encode
produces a one-byte stream that is not a valid container stream. -/
theorem write_frames_empty_input_trailer_only (codec : Codec) :
    write_frames codec [] = ⟨[[0x3b]], true⟩ ∧
      (write_frames codec []).chunks.flatten = [0x3b] := by
  constructor <;> rfl

/-- C1: encoding two pixel-identical canvases emits the header chunks,
exactly the one frame-data block group of the fully-encoded first
canvas, and the trailer; the second canvas, whose modulo-256 difference
against its predecessor has an empty bounding box, contributes no
chunk at all. -/
theorem write_frames_drops_identical_second_canvas (codec : Codec) (c1 c2 : Canvas)
    (hw : c2.width = c1.width) (hh : c2.height = c1.height)
    (hpix : ∀ x, x < c1.width → ∀ y, y < c1.height → c2.pix x y = c1.pix x y) :
    write_frames codec [c1, c2] =
      ⟨firstFrameChunks codec c1 ++ [[0x3b]], true⟩ := by
  have hbbox : (subtract_modulo c2 c1).getbbox = none := by
    apply getbbox_eq_none
    intro x hx y hy
    simp only [subtract_modulo] at hx hy ⊢
    have hx1 : x < c1.width := by omega
    have hy1 : y < c1.height := by omega
    rw [hpix x hx1 y hy1]
    exact subMod_self _
  have hdc : deltaChunk codec c1 c2 = [] := by
    rw [deltaChunk, hbbox]
  rw [write_frames_cons codec c1 [c2] (by simp [hw, hh])]
  simp [hdc]

/-- Closed witness for C1 at a concrete codec and two concrete
pixel-identical 2-by-2 canvases. -/
def witCodec : Codec where
  packedBit := fun c => 0xf7 + c.width % 2
  colorTable := fun c => [c.width % 256, c.height % 256, 0]
  getdata := fun c off => [[c.width, c.height, off.1, off.2]]

def witRed : Canvas := ⟨2, 2, fun _ _ => ⟨255, 0, 0, 255⟩⟩

def witRedB : Canvas := ⟨2, 2, fun x y => if x + y < 9 then ⟨255, 0, 0, 255⟩ else Pixel.zero⟩

theorem write_frames_drops_identical_second_canvas_witness :
    write_frames witCodec [witRed, witRedB] =
      ⟨firstFrameChunks witCodec witRed ++ [[0x3b]], true⟩ :=
  write_frames_drops_identical_second_canvas witCodec witRed witRedB rfl rfl
    (by decide)

/-- C6: for every non-empty input sequence whose canvases share the
first canvas's dimensions, every canvas after the first is delta-encoded
against the canvas literally preceding it in the input list — the pairs
below zip each later canvas with its literal predecessor — and the loop
retains the current uncropped canvas as the next baseline whether or not
`deltaChunk` produced a block for it (an empty bounding box simply
contributes `[]` while the zip advances to the next pair). -/
theorem write_frames_baseline_literal_predecessor (codec : Codec) (f0 : Canvas)
    (rest : List Canvas)
    (hsz : ∀ c ∈ rest, c.width = f0.width ∧ c.height = f0.height) :
    write_frames codec (f0 :: rest) =
      ⟨firstFrameChunks codec f0 ++
          ((rest.zip (f0 :: rest)).flatMap (fun pr => deltaChunk codec pr.2 pr.1)) ++
          [[0x3b]], true⟩ :=
  write_frames_cons codec f0 rest hsz

def witGreen : Canvas := ⟨2, 2, fun x y => if x = 1 ∧ y = 1 then ⟨0, 255, 0, 255⟩ else ⟨255, 0, 0, 255⟩⟩

theorem write_frames_baseline_literal_predecessor_witness :
    write_frames witCodec [witRed, witGreen, witGreen] =
      ⟨firstFrameChunks witCodec witRed ++
          (([witGreen, witGreen].zip [witRed, witGreen, witGreen]).flatMap
            (fun pr => deltaChunk witCodec pr.2 pr.1)) ++
          [[0x3b]], true⟩ :=
  write_frames_baseline_literal_predecessor witCodec witRed [witGreen, witGreen]
    (by decide)

/-- C7: for a non-empty input of shared-dimension canvases (with the
two dimensions fitting GIF's 16-bit fields), the stream is, in order:
the chunk `GIF` `89a`; the 7-byte logical screen descriptor holding the
little-endian width and height, the codec's packed flags byte for the
first canvas, a zero background color index and a zero pixel aspect
ratio; the codec's global color table for the first canvas; the 19-byte
`NETSCAPE2.0` application extension with loop count 0; the data blocks
of each retained frame; and the single trailer byte `0x3B`.  The
trailing conjuncts record that the two-byte fields are genuine
little-endian byte pairs. -/
theorem write_frames_stream_layout (codec : Codec) (f0 : Canvas) (rest : List Canvas)
    (hsz : ∀ c ∈ rest, c.width = f0.width ∧ c.height = f0.height)
    (hw : f0.width < 65536) (hh : f0.height < 65536) :
    write_frames codec (f0 :: rest) =
      ⟨[71, 73, 70, 56, 57, 97] ::
          [f0.width % 256, f0.width / 256, f0.height % 256, f0.height / 256,
            codec.packedBit f0, 0, 0] ::
          codec.colorTable f0 ::
          [0x21, 0xff, 0x0b, 78, 69, 84, 83, 67, 65, 80, 69, 50, 46, 48,
            0x03, 0x01, 0, 0, 0] ::
          (codec.getdata f0 (0, 0) ++
            ((rest.zip (f0 :: rest)).flatMap (fun pr => deltaChunk codec pr.2 pr.1)) ++
            [[0x3b]]), true⟩ ∧
      (application_ext 0).length = 19 ∧
      f0.width % 256 + 256 * (f0.width / 256) = f0.width ∧ f0.width / 256 < 256 ∧
      f0.height % 256 + 256 * (f0.height / 256) = f0.height ∧ f0.height / 256 < 256 := by
  refine ⟨?_, by rfl, Nat.mod_add_div _ _, by omega, Nat.mod_add_div _ _, by omega⟩
  rw [write_frames_cons codec f0 rest hsz]
  simp [firstFrameChunks, header_block, logical_screen_descriptor, int_to_bin,
    application_ext]

theorem write_frames_stream_layout_witness :
    write_frames witCodec [witRed, witGreen] =
      ⟨[71, 73, 70, 56, 57, 97] ::
          [witRed.width % 256, witRed.width / 256, witRed.height % 256,
            witRed.height / 256, witCodec.packedBit witRed, 0, 0] ::
          witCodec.colorTable witRed ::
          [0x21, 0xff, 0x0b, 78, 69, 84, 83, 67, 65, 80, 69, 50, 46, 48,
            0x03, 0x01, 0, 0, 0] ::
          (witCodec.getdata witRed (0, 0) ++
            (([witGreen].zip [witRed, witGreen]).flatMap
              (fun pr => deltaChunk witCodec pr.2 pr.1)) ++
            [[0x3b]]), true⟩ ∧
      (application_ext 0).length = 19 ∧
      witRed.width % 256 + 256 * (witRed.width / 256) = witRed.width ∧
      witRed.width / 256 < 256 ∧
      witRed.height % 256 + 256 * (witRed.height / 256) = witRed.height ∧
      witRed.height / 256 < 256 :=
  write_frames_stream_layout witCodec witRed [witGreen] (by decide) (by decide)
    (by decide)

def witBad : Canvas := ⟨3, 2, fun _ _ => Pixel.zero⟩

/-- C8 is a code bug, not a property of the code: `write_frames` has no
size check anywhere, and `subtract_modulo` does not raise on a size
mismatch — it silently computes the delta over the origin-anchored
intersection of the two sizes.  Evaluating the code at the failing
input `[witRed (2 by 2), witBad (3 by 2)]`: the 3-by-2 canvas `witBad`
differs in width from the stream's established 2-by-2 screen size, yet
the encoder does not abort; it delta-encodes `witBad` over the 2-by-2
intersection, writes a data block for the mismatched canvas (the codec
is handed `witBad` cropped to the intersection's bounding box at offset
`(0, 0)`), and finishes the stream normally with the trailer byte —
where the specification demands a fatal precondition violation that
aborts before any byte of that frame's blocks is written. -/
theorem write_frames_geometry_mismatch_writes_and_continues :
    witBad.width ≠ witRed.width ∧
    write_frames witCodec [witRed, witBad] =
      ⟨firstFrameChunks witCodec witRed ++
          witCodec.getdata (witBad.crop ⟨0, 0, 2, 2⟩) (0, 0) ++ [[0x3b]], true⟩ ∧
    (write_frames witCodec [witRed, witBad]).chunks.getLast? = some [0x3b] := by
  decide

/-- C2: encoding two equal-sized, byte-valued canvases that differ
exactly within the rectangle `R = (x0, y0, x1, y1)` — every pixel
outside `R` agrees, and `R` is tight: some pixel differs in its first
and last column and in its first and last row, the differing positions
being given explicitly — writes a second frame-data block group
obtained by handing the codec the current canvas cropped to `R`, with
declared offset `(x0, y0)`, `R`'s top-left corner, and a cropped image
whose declared size is exactly `R`'s dimensions. -/
theorem write_frames_delta_crop_offset_and_size (codec : Codec) (c1 c2 : Canvas)
    (x0 y0 x1 y1 : Nat)
    (hw : c2.width = c1.width) (hh : c2.height = c1.height)
    (hbx : x0 < x1) (hby : y0 < y1) (hxw : x1 ≤ c2.width) (hyh : y1 ≤ c2.height)
    (hbytes1 : ∀ x, x < c2.width → ∀ y, y < c2.height → (c1.pix x y).bytes)
    (hbytes2 : ∀ x, x < c2.width → ∀ y, y < c2.height → (c2.pix x y).bytes)
    (hout : ∀ x, x < c2.width → ∀ y, y < c2.height →
      ¬ insideRect ⟨x0, y0, x1, y1⟩ x y → c2.pix x y = c1.pix x y)
    (ly : Nat) (hly : ly < c2.height) (hdl : c2.pix x0 ly ≠ c1.pix x0 ly)
    (ry : Nat) (hry : ry < c2.height) (hdr : c2.pix (x1 - 1) ry ≠ c1.pix (x1 - 1) ry)
    (tx : Nat) (htx : tx < c2.width) (hdt : c2.pix tx y0 ≠ c1.pix tx y0)
    (bx : Nat) (hbxw : bx < c2.width) (hdb : c2.pix bx (y1 - 1) ≠ c1.pix bx (y1 - 1)) :
    write_frames codec [c1, c2] =
      ⟨firstFrameChunks codec c1 ++
          codec.getdata (c2.crop ⟨x0, y0, x1, y1⟩) (x0, y0) ++ [[0x3b]], true⟩ ∧
      (c2.crop ⟨x0, y0, x1, y1⟩).width = x1 - x0 ∧
      (c2.crop ⟨x0, y0, x1, y1⟩).height = y1 - y0 := by
  have hzero : ∀ x, x < c2.width → ∀ y, y < c2.height →
      (x < x0 ∨ x1 ≤ x ∨ y < y0 ∨ y1 ≤ y) →
      (subtract_modulo c2 c1).pix x y = Pixel.zero := by
    intro x hx y hy hcase
    show (c2.pix x y).subMod (c1.pix x y) = Pixel.zero
    rw [hout x hx y hy (by intro hin; simp only [insideRect] at hin; omega)]
    exact subMod_self _
  have hnzp : ∀ x y, x < c2.width → y < c2.height → c2.pix x y ≠ c1.pix x y →
      (subtract_modulo c2 c1).pix x y ≠ Pixel.zero := by
    intro x y hx hy hne
    show (c2.pix x y).subMod (c1.pix x y) ≠ Pixel.zero
    exact subMod_ne_zero _ _ (hbytes2 x hx y hy) (hbytes1 x hx y hy) hne
  have hx0w : x0 < c2.width := lt_of_lt_of_le hbx hxw
  have hx1w : x1 - 1 < c2.width := by omega
  have hy0h : y0 < c2.height := lt_of_lt_of_le hby hyh
  have hy1h : y1 - 1 < c2.height := by omega
  have hdw : (subtract_modulo c2 c1).width = c2.width := by
    simp only [subtract_modulo]
    omega
  have hdh : (subtract_modulo c2 c1).height = c2.height := by
    simp only [subtract_modulo]
    omega
  have hfs_col : firstSat (subtract_modulo c2 c1).colNZ (subtract_modulo c2 c1).width =
      some x0 := by
    apply firstSat_eq_some _ _ _ (by rw [hdw]; exact hx0w)
    · exact colNZ_eq_true _ x0 ly (by rw [hdh]; exact hly) (hnzp x0 ly hx0w hly hdl)
    · intro j hj
      apply colNZ_eq_false
      intro y hy
      exact hzero j (by omega) y (hdh ▸ hy) (Or.inl hj)
  have hls_col : lastSat (subtract_modulo c2 c1).colNZ (subtract_modulo c2 c1).width =
      some (x1 - 1) := by
    apply lastSat_eq_some _ _ _ (by rw [hdw]; exact hx1w)
    · exact colNZ_eq_true _ (x1 - 1) ry (by rw [hdh]; exact hry)
        (hnzp (x1 - 1) ry hx1w hry hdr)
    · intro j h1 h2
      apply colNZ_eq_false
      intro y hy
      exact hzero j (hdw ▸ h2) y (hdh ▸ hy) (Or.inr (Or.inl (by omega)))
  have hfs_row : firstSat (subtract_modulo c2 c1).rowNZ (subtract_modulo c2 c1).height =
      some y0 := by
    apply firstSat_eq_some _ _ _ (by rw [hdh]; exact hy0h)
    · exact rowNZ_eq_true _ tx y0 (by rw [hdw]; exact htx) (hnzp tx y0 htx hy0h hdt)
    · intro j hj
      apply rowNZ_eq_false
      intro x hx
      exact hzero x (hdw ▸ hx) j (by omega) (Or.inr (Or.inr (Or.inl hj)))
  have hls_row : lastSat (subtract_modulo c2 c1).rowNZ (subtract_modulo c2 c1).height =
      some (y1 - 1) := by
    apply lastSat_eq_some _ _ _ (by rw [hdh]; exact hy1h)
    · exact rowNZ_eq_true _ bx (y1 - 1) (by rw [hdw]; exact hbxw)
        (hnzp bx (y1 - 1) hbxw hy1h hdb)
    · intro j h1 h2
      apply rowNZ_eq_false
      intro x hx
      exact hzero x (hdw ▸ hx) j (hdh ▸ h2) (Or.inr (Or.inr (Or.inr (by omega))))
  have hbbox : (subtract_modulo c2 c1).getbbox = some ⟨x0, y0, x1, y1⟩ := by
    rw [getbbox_eq_some _ x0 y0 (x1 - 1) (y1 - 1) hfs_col hfs_row hls_col hls_row]
    have e1 : x1 - 1 + 1 = x1 := by omega
    have e2 : y1 - 1 + 1 = y1 := by omega
    rw [e1, e2]
  have hdc : deltaChunk codec c1 c2 =
      codec.getdata (c2.crop ⟨x0, y0, x1, y1⟩) (x0, y0) := by
    rw [deltaChunk, hbbox]
  refine ⟨?_, rfl, rfl⟩
  rw [write_frames_cons codec c1 [c2] (by simp [hw, hh])]
  simp [hdc]

def witBlack : Canvas := ⟨2, 2, fun _ _ => ⟨0, 0, 0, 255⟩⟩

def witSpot : Canvas := ⟨2, 2, fun x y => if x = 1 ∧ y = 1 then ⟨250, 0, 0, 255⟩ else ⟨0, 0, 0, 255⟩⟩

theorem write_frames_delta_crop_offset_and_size_witness :
    write_frames witCodec [witBlack, witSpot] =
      ⟨firstFrameChunks witCodec witBlack ++
          witCodec.getdata (witSpot.crop ⟨1, 1, 2, 2⟩) (1, 1) ++ [[0x3b]], true⟩ ∧
      (witSpot.crop ⟨1, 1, 2, 2⟩).width = 2 - 1 ∧
      (witSpot.crop ⟨1, 1, 2, 2⟩).height = 2 - 1 :=
  write_frames_delta_crop_offset_and_size witCodec witBlack witSpot 1 1 2 2
    rfl rfl (by decide) (by decide) (by decide) (by decide) (by decide) (by decide)
    (by decide) 1 (by decide) (by decide) 1 (by decide) (by decide)
    1 (by decide) (by decide) 1 (by decide) (by decide)

/-! ## Decoder lemmas and claims -/

theorem read_loop_ok (src : Source) (mutate : Nat → Canvas → Canvas)
    (fs : List SourceFrame) :
    ∀ (pos : Nat) (prev : Canvas), ∃ l,
      read_loop src mutate fs pos prev = PyResult.ok l ∧
        l.length = fs.length ∧
        ∀ c ∈ l, c.width = src.width ∧ c.height = src.height := by
  induction fs with
  | nil =>
    intro pos prev
    exact ⟨[], rfl, rfl, by intro c hc; cases hc⟩
  | cons sf rest ih =>
    intro pos prev
    match rest, ih with
    | [], _ =>
      refine ⟨[composite src sf (effPal src sf) prev], rfl, rfl, ?_⟩
      intro c hc
      rcases List.mem_singleton.mp hc with h
      subst h
      exact ⟨rfl, rfl⟩
    | r :: rs, ih =>
      obtain ⟨l, hl, hlen, hdim⟩ :=
        ih (pos + 1) (mutate pos (composite src sf (effPal src sf) prev))
      refine ⟨composite src sf (effPal src sf) prev :: l, ?_, ?_, ?_⟩
      · simp only [read_loop, hl]
      · simp [hlen]
      · intro c hc
        rcases List.mem_cons.mp hc with h | h
        · subst h; exact ⟨rfl, rfl⟩
        · exact hdim c h

/-- C3: for every source with at least one frame and every consumer
behaviour, the decoder finishes with exactly one canvas per source
frame, in source order, and every yielded canvas has the source's
declared (first-frame) canvas width and height. -/
theorem read_frames_yields_one_canvas_per_frame (src : Source)
    (mutate : Nat → Canvas → Canvas) (h : src.frames ≠ []) :
    ∃ l, read_frames src mutate = PyResult.ok l ∧
      l.length = src.frames.length ∧
      ∀ c ∈ l, c.width = src.width ∧ c.height = src.height := by
  match hf : src.frames, h with
  | f0 :: rest, _ =>
    obtain ⟨l, hl, hlen, hdim⟩ := read_loop_ok src mutate (f0 :: rest) 0
      ⟨src.width, src.height, fun x y => convPix f0 (effPal src f0) x y⟩
    refine ⟨l, ?_, by rw [hlen], hdim⟩
    rw [read_frames, hf]
    exact hl

def witPal : Pal := fun i => ⟨i % 256, 9, 9, 0⟩

def witF0 : SourceFrame := ⟨some witPal, some ⟨0, 0, 2, 2⟩, fun _ _ => some 0⟩

def witF1 : SourceFrame := ⟨none, some ⟨0, 0, 2, 2⟩, fun x _ => some x⟩

def witSrc : Source := ⟨2, 2, witPal, [witF0, witF1]⟩

theorem read_frames_yields_one_canvas_per_frame_witness :
    ∃ l, read_frames witSrc (fun _ c => c) = PyResult.ok l ∧
      l.length = witSrc.frames.length ∧
      ∀ c ∈ l, c.width = witSrc.width ∧ c.height = witSrc.height :=
  read_frames_yields_one_canvas_per_frame witSrc (fun _ c => c)
    (by simp [witSrc])

/-- C9: when the source's seek raises its end-of-sequence condition the
decoder's `except EOFError` clause breaks out of the loop, so the run
terminates normally with the canvases yielded so far: the result is
always a `PyResult.ok` value, never a propagated fault. -/
theorem read_frames_eof_normal_termination (src : Source)
    (mutate : Nat → Canvas → Canvas) (h : src.frames ≠ []) :
    ∃ l, read_frames src mutate = PyResult.ok l ∧ l ≠ [] := by
  match hf : src.frames, h with
  | f0 :: rest, _ =>
    obtain ⟨l, hl, hlen, _⟩ := read_loop_ok src mutate (f0 :: rest) 0
      ⟨src.width, src.height, fun x y => convPix f0 (effPal src f0) x y⟩
    refine ⟨l, ?_, ?_⟩
    · rw [read_frames, hf]
      exact hl
    · intro hnil
      rw [hnil] at hlen
      simp at hlen
  
def witSrcOne : Source := ⟨1, 1, witPal, [⟨some witPal, some ⟨0, 0, 1, 1⟩, fun _ _ => some 3⟩]⟩

theorem read_frames_eof_normal_termination_witness :
    ∃ l, read_frames witSrcOne (fun _ c => c) = PyResult.ok l ∧ l ≠ [] :=
  read_frames_eof_normal_termination witSrcOne (fun _ c => c)
    (by simp [witSrcOne])

def cexPal : Pal := fun _ => ⟨5, 6, 7, 0⟩

def cexG0 : SourceFrame := ⟨none, some ⟨0, 0, 1, 1⟩, fun _ _ => some 0⟩

def cexG1 : SourceFrame := ⟨none, some ⟨0, 0, 0, 0⟩, fun _ _ => none⟩

/-- A 1-by-1 two-frame source whose second frame is partial (its tile's
bottom-right corner `(0, 0)` differs from the size `(1, 1)`) and
contributes no opaque pixel of its own, so its composited canvas shows
exactly the decoder's retained `prev_frame`. -/
def cexSrcAlias : Source := ⟨1, 1, cexPal, [cexG0, cexG1]⟩

/-- A consumer that overwrites the first yielded canvas (after it has
been yielded) with solid `(1,2,3,255)` and leaves later canvases
alone. -/
def cexMut : Nat → Canvas → Canvas :=
  fun i c => if i = 0 then ⟨1, 1, fun _ _ => ⟨1, 2, 3, 255⟩⟩ else c

/-- Counterexample to C4.  The code's `prev_frame = current_frame`
retains the yielded canvas itself, not a copy, so the two decodes of
the same source `cexSrcAlias` — identical except that in one the
consumer mutates yielded canvas 0 after receiving it — disagree on the
pixel content of the later yielded canvas 1: the claim that mutating a
canvas after it is yielded never affects any later yielded canvas is
false at this input. -/
theorem read_frames_mutation_affects_later_yield_cex :
    yieldPix cexSrcAlias 1 0 0 = ⟨5, 6, 7, 255⟩ ∧
    yieldPixM cexSrcAlias cexMut 1 0 0 = ⟨1, 2, 3, 255⟩ ∧
    yieldPixM cexSrcAlias cexMut 1 0 0 ≠ yieldPix cexSrcAlias 1 0 0 := by
  decide

theorem composite_indep_of_full (src : Source) (sf : SourceFrame) (pal : Pal)
    (prev prev' : Canvas) (h : is_partial_frame src sf = false) :
    composite src sf pal prev = composite src sf pal prev' := by
  simp only [composite, h, Bool.false_eq_true, if_false]

theorem read_loop_const_of_full (src : Source) (fs : List SourceFrame)
    (h : ∀ sf ∈ fs, is_partial_frame src sf = false) :
    ∀ (m m' : Nat → Canvas → Canvas) (pos pos' : Nat) (prev prev' : Canvas),
      read_loop src m fs pos prev = read_loop src m' fs pos' prev' := by
  induction fs with
  | nil => intro m m' pos pos' prev prev'; rfl
  | cons sf rest ih =>
    intro m m' pos pos' prev prev'
    have hsf := h sf (List.mem_cons_self sf rest)
    have hcur : composite src sf (effPal src sf) prev
        = composite src sf (effPal src sf) prev' :=
      composite_indep_of_full src sf _ prev prev' hsf
    cases rest with
    | nil => simp only [read_loop, hcur]
    | cons r rs =>
      have hrest : ∀ x ∈ r :: rs, is_partial_frame src x = false :=
        fun x hx => h x (List.mem_cons_of_mem sf hx)
      have hrec := ih hrest m m' (pos + 1) (pos' + 1)
        (m pos (composite src sf (effPal src sf) prev'))
        (m' pos' (composite src sf (effPal src sf) prev'))
      simp only [read_loop, hcur, hrec]

/-- Amendment of C4 that the counterexample forces: the decoder retains
the yielded canvas itself — not a copy — as `previous_composited`, so a
post-yield mutation is visible to the next iteration; the yielded
sequence is nevertheless independent of consumer mutation whenever
every frame after the first is a full (non-partial) frame, because only
the partial-frame branch ever reads the retained canvas. -/
theorem read_frames_mutation_confined_to_partial_frames (src : Source)
    (m : Nat → Canvas → Canvas)
    (h : ∀ sf ∈ src.frames.tail, is_partial_frame src sf = false) :
    read_frames src m = read_frames src (fun _ c => c) := by
  rw [read_frames, read_frames]
  cases hf : src.frames with
  | nil => rfl
  | cons f0 rest =>
    rw [hf] at h
    cases rest with
    | nil => rfl
    | cons r rs =>
      have hrest : ∀ x ∈ r :: rs, is_partial_frame src x = false := h
      simp only [read_loop]
      rw [read_loop_const_of_full src (r :: rs) hrest m (fun _ c => c) 1 1
        (m 0 _) _]

def witMut : Nat → Canvas → Canvas := fun i c => if i = 0 then witBad else c

theorem read_frames_mutation_confined_to_partial_frames_witness :
    read_frames witSrc witMut = read_frames witSrc (fun _ c => c) :=
  read_frames_mutation_confined_to_partial_frames witSrc witMut (by decide)

def cexPal9 : Pal := fun _ => ⟨9, 9, 9, 0⟩

def cexH0 : SourceFrame := ⟨some cexPal9, some ⟨0, 0, 2, 1⟩, fun _ _ => some 0⟩

/-- A second frame with no local palette whose declared drawable region
`(1, 0, 2, 1)` is strictly smaller than the 2-by-1 canvas (it misses
column 0), yet whose bottom-right corner `(2, 1)` equals the canvas
size, so the code's `is_partial_frame` test classifies it as full. -/
def cexH1 : SourceFrame := ⟨none, some ⟨1, 0, 2, 1⟩, fun _ _ => some 0⟩

def cexSrcOffsetTile : Source := ⟨2, 1, cexPal9, [cexH0, cexH1]⟩

/-- Counterexample to C5.  The source `cexSrcOffsetTile` satisfies the
claim's premises — its second frame's drawable region is strictly
smaller than the canvas (area 1 of 2, missing pixel `(0, 0)`) and it
carries no local palette — but `is_partial_frame` compares only the
region's bottom-right corner with the canvas size, classifies the frame
as full, and skips pasting the previous canvas, so the decoded pixel
`(0, 0)` outside the region is transparent black instead of the first
canvas's `(9, 9, 9, 255)`. -/
theorem read_frames_offset_tile_outside_pixels_cex :
    cexH1.localPalette.isNone = true ∧
    cexH1.tile = some ⟨1, 0, 2, 1⟩ ∧
    (2 - 1) * (1 - 0) < cexSrcOffsetTile.width * cexSrcOffsetTile.height ∧
    ¬ insideRect ⟨1, 0, 2, 1⟩ 0 0 ∧
    yieldPix cexSrcOffsetTile 0 0 0 = ⟨9, 9, 9, 255⟩ ∧
    yieldPix cexSrcOffsetTile 1 0 0 = ⟨0, 0, 0, 0⟩ ∧
    yieldPix cexSrcOffsetTile 1 0 0 ≠ yieldPix cexSrcOffsetTile 0 0 0 := by
  decide

/-- Amendment of C5 that the counterexample forces: with "partial" read
as the code's own test — the declared region's bottom-right corner
differs from the canvas size — a two-frame source whose second frame is
partial in that sense and carries no local palette decodes so that
pixels outside the second frame's region keep the first decoded
canvas's values, and pixels inside it show the second frame's content
under the first frame's (global) palette where the frame is opaque,
the first canvas's pixel where it is transparent. -/
theorem read_frames_partial_second_frame_composites (src : Source)
    (f0 f1 : SourceFrame) (t : Rect)
    (hf : src.frames = [f0, f1])
    (hlp : f1.localPalette = none)
    (ht : f1.tile = some t)
    (hp : (t.x1, t.y1) ≠ (src.width, src.height)) :
    ∃ l, read_frames src (fun _ c => c) = PyResult.ok l ∧ l.length = 2 ∧
      ∀ x, x < src.width → ∀ y, y < src.height →
        ((insideRect t x y →
          (l.getD 1 default).pix x y =
            (match f1.idx x y with
             | some i =>
               ⟨(src.palette i).r, (src.palette i).g, (src.palette i).b, 255⟩
             | none => (l.getD 0 default).pix x y)) ∧
         (¬ insideRect t x y →
          (l.getD 1 default).pix x y = (l.getD 0 default).pix x y)) := by
  have hpal1 : effPal src f1 = src.palette := by
    unfold effPal
    rw [hlp]
    rfl
  have hpart : is_partial_frame src f1 = true := by
    unfold is_partial_frame
    rw [ht]
    exact decide_eq_true hp
  rw [read_frames, hf]
  simp only [read_loop]
  refine ⟨_, rfl, rfl, ?_⟩
  intro x hx y hy
  simp only [List.getD_cons_succ, List.getD_cons_zero]
  constructor
  · intro hin
    simp only [composite, hpal1, hpart, convPix, ht, if_pos hin, if_true]
    cases hidx : f1.idx x y with
    | some i => simp
    | none => simp [Pixel.zero]
  · intro hnotin
    simp only [composite, hpal1, hpart, convPix, ht, if_neg hnotin, if_true]
    simp [Pixel.zero]

def wit5F1 : SourceFrame :=
  ⟨none, some ⟨0, 0, 1, 1⟩, fun x y => if x = 0 ∧ y = 0 then some 1 else none⟩

def wit5Src : Source := ⟨2, 2, witPal, [witF0, wit5F1]⟩

theorem read_frames_partial_second_frame_composites_witness :
    ∃ l, read_frames wit5Src (fun _ c => c) = PyResult.ok l ∧ l.length = 2 ∧
      ∀ x, x < wit5Src.width → ∀ y, y < wit5Src.height →
        ((insideRect ⟨0, 0, 1, 1⟩ x y →
          (l.getD 1 default).pix x y =
            (match wit5F1.idx x y with
             | some i =>
               ⟨(wit5Src.palette i).r, (wit5Src.palette i).g,
                 (wit5Src.palette i).b, 255⟩
             | none => (l.getD 0 default).pix x y)) ∧
         (¬ insideRect ⟨0, 0, 1, 1⟩ x y →
          (l.getD 1 default).pix x y = (l.getD 0 default).pix x y)) :=
  read_frames_partial_second_frame_composites wit5Src witF0 wit5F1 ⟨0, 0, 1, 1⟩
    rfl rfl rfl (by decide)
